import Mathlib

/-!
Verification of the MIME email codec of the gmail-mcp-server-rust repository.

Rust strings are modelled as `List Char`, byte sequences (`Vec<u8>`, `&[u8]`)
as `List Nat` with every element `< 256`.  The two wall-clock reads feeding
`generate_boundary` are passed in as explicit `Nat` arguments.  Fallible Rust
functions returning `Result` are modelled with `Option` / `Except`.
-/

/-- Shorthand turning a Lean string literal into the `List Char` model of a
Rust string. -/
def str (s : String) : List Char := s.data

/-! ## Base64 engines (model of the `base64` crate's general-purpose engines,
an external collaborator of `src/gmail/utils.rs`) -/

/-- The standard base64 alphabet. -/
def b64AlphabetStd : List Char :=
  str "ABCDEFGHIJKLMNOPQRSTUVWXYZabcdefghijklmnopqrstuvwxyz0123456789+/"

/-- The URL-safe base64 alphabet. -/
def b64AlphabetUrl : List Char :=
  str "ABCDEFGHIJKLMNOPQRSTUVWXYZabcdefghijklmnopqrstuvwxyz0123456789-_"

/-- Sextet to character, standard alphabet. -/
def b64CharStd (n : Nat) : Char := b64AlphabetStd.getD n 'A'

/-- Sextet to character, URL-safe alphabet. -/
def b64CharUrl (n : Nat) : Char := b64AlphabetUrl.getD n 'A'

/-- Character to sextet, standard alphabet. -/
def b64IdxStd (c : Char) : Option Nat :=
  let i := b64AlphabetStd.indexOf c
  if i < 64 then some i else none

/-- Character to sextet, URL-safe alphabet. -/
def b64IdxUrl (c : Char) : Option Nat :=
  let i := b64AlphabetUrl.indexOf c
  if i < 64 then some i else none

/-- Base64 encoding without padding: bytes are consumed in groups of three,
a final group of one or two bytes produces two or three characters. -/
def b64EncodeNoPad (alpha : Nat → Char) : List Nat → List Char
  | [] => []
  | [a] => [alpha (a / 4), alpha (a % 4 * 16)]
  | [a, b] => [alpha (a / 4), alpha (a % 4 * 16 + b / 16), alpha (b % 16 * 4)]
  | a :: b :: c :: rest =>
    alpha (a / 4) :: alpha (a % 4 * 16 + b / 16) :: alpha (b % 16 * 4 + c / 64) ::
      alpha (c % 64) :: b64EncodeNoPad alpha rest

/-- Base64 encoding with `=` padding to a multiple of four characters. -/
def b64EncodePadded (alpha : Nat → Char) (l : List Nat) : List Char :=
  b64EncodeNoPad alpha l ++
    (if l.length % 3 = 1 then ['=', '='] else if l.length % 3 = 2 then ['='] else [])

/-- Decode a final group of two characters into one byte (trailing bits must
be zero, as the crate's engines reject non-canonical encodings). -/
def b64Group2 : Option Nat → Option Nat → Option (List Nat)
  | some s1, some s2 => if s2 % 16 = 0 then some [s1 * 4 + s2 / 16] else none
  | _, _ => none

/-- Decode a final group of three characters into two bytes. -/
def b64Group3 : Option Nat → Option Nat → Option Nat → Option (List Nat)
  | some s1, some s2, some s3 =>
    if s3 % 4 = 0 then some [s1 * 4 + s2 / 16, s2 % 16 * 16 + s3 / 4] else none
  | _, _, _ => none

/-- Decode a full group of four characters into three bytes and prepend it to
an already decoded tail. -/
def b64Group4 : Option Nat → Option Nat → Option Nat → Option Nat →
    Option (List Nat) → Option (List Nat)
  | some s1, some s2, some s3, some s4, some bs =>
    some ((s1 * 4 + s2 / 16) :: (s2 % 16 * 16 + s3 / 4) :: (s3 % 4 * 64 + s4) :: bs)
  | _, _, _, _, _ => none

/-- Base64 decoding of unpadded input: full groups of four characters, then a
final group of two or three; a single leftover character is invalid. -/
def b64DecodeNoPad (idx : Char → Option Nat) : List Char → Option (List Nat)
  | [] => some []
  | [_] => none
  | [c1, c2] => b64Group2 (idx c1) (idx c2)
  | [c1, c2, c3] => b64Group3 (idx c1) (idx c2) (idx c3)
  | c1 :: c2 :: c3 :: c4 :: rest =>
    b64Group4 (idx c1) (idx c2) (idx c3) (idx c4) (b64DecodeNoPad idx rest)

/-- Base64 decoding of canonically padded input: the length must be a
multiple of four and up to two trailing `=` characters are stripped. -/
def b64DecodePadded (idx : Char → Option Nat) (l : List Char) : Option (List Nat) :=
  if l.length % 4 = 0 then
    if l.getLast? = some '=' then
      if l.dropLast.getLast? = some '=' then b64DecodeNoPad idx l.dropLast.dropLast
      else b64DecodeNoPad idx l.dropLast
    else b64DecodeNoPad idx l
  else none

/-! ## UTF-8 (model of Rust `str::as_bytes` / `String::from_utf8`) -/

/-- UTF-8 encoding of one Unicode code point. -/
def utf8EncodeCodepoint (c : Nat) : List Nat :=
  if c < 0x80 then [c]
  else if c < 0x800 then [0xC0 + c / 64, 0x80 + c % 64]
  else if c < 0x10000 then [0xE0 + c / 4096, 0x80 + c / 64 % 64, 0x80 + c % 64]
  else [0xF0 + c / 262144, 0x80 + c / 4096 % 64, 0x80 + c / 64 % 64, 0x80 + c % 64]

/-- UTF-8 bytes of a string (model of `str::as_bytes`). -/
def utf8Bytes : List Char → List Nat
  | [] => []
  | c :: rest => utf8EncodeCodepoint c.toNat ++ utf8Bytes rest

/-- Is `b` a UTF-8 continuation byte? -/
def utf8Cont (b : Nat) : Bool := 0x80 ≤ b && b < 0xC0

/-- Strict UTF-8 decoding (model of `String::from_utf8`): rejects overlong
forms, surrogates and code points above `0x10FFFF`. -/
def utf8Decode : List Nat → Option (List Char)
  | [] => some []
  | b1 :: rest =>
    if b1 < 0x80 then
      match utf8Decode rest with
      | some cs => some (Char.ofNat b1 :: cs)
      | none => none
    else if b1 < 0xC2 then none
    else if b1 < 0xE0 then
      match rest with
      | b2 :: rest2 =>
        if utf8Cont b2 then
          match utf8Decode rest2 with
          | some cs => some (Char.ofNat ((b1 - 0xC0) * 64 + (b2 - 0x80)) :: cs)
          | none => none
        else none
      | _ => none
    else if b1 < 0xF0 then
      match rest with
      | b2 :: b3 :: rest2 =>
        if (if b1 = 0xE0 then 0xA0 ≤ b2 && b2 < 0xC0
            else if b1 = 0xED then 0x80 ≤ b2 && b2 < 0xA0
            else utf8Cont b2) && utf8Cont b3 then
          match utf8Decode rest2 with
          | some cs =>
            some (Char.ofNat ((b1 - 0xE0) * 4096 + (b2 - 0x80) * 64 + (b3 - 0x80)) :: cs)
          | none => none
        else none
      | _ => none
    else if b1 < 0xF5 then
      match rest with
      | b2 :: b3 :: b4 :: rest2 =>
        if (if b1 = 0xF0 then 0x90 ≤ b2 && b2 < 0xC0
            else if b1 = 0xF4 then 0x80 ≤ b2 && b2 < 0x90
            else utf8Cont b2) && utf8Cont b3 && utf8Cont b4 then
          match utf8Decode rest2 with
          | some cs =>
            some (Char.ofNat ((b1 - 0xF0) * 262144 + (b2 - 0x80) * 4096 +
              (b3 - 0x80) * 64 + (b4 - 0x80)) :: cs)
          | none => none
        else none
      | _ => none
    else none
termination_by l => l.length
decreasing_by
  all_goals simp_all
  all_goals omega

/-! ## `src/gmail/utils.rs`: validator, header encoder, transport codec -/

/-- Model of `str::split` on a single separator character. -/
def splitOnChar (sep : Char) : List Char → List (List Char)
  | [] => [[]]
  | c :: rest =>
    if c = sep then [] :: splitOnChar sep rest
    else
      match splitOnChar sep rest with
      | [] => [[c]]
      | h :: t => (c :: h) :: t

/-- `validate_email` (src/gmail/utils.rs:11): split on `@`, exactly two
non-empty segments, no spaces, domain contains a dot and neither starts nor
ends with one. -/
def validate_email (email : List Char) : Bool :=
  match splitOnChar '@' email with
  | [lp, dp] =>
    !lp.isEmpty && !dp.isEmpty && !lp.contains ' ' && !dp.contains ' ' &&
      dp.contains '.' && !(dp.head? == some '.') && !(dp.getLast? == some '.')
  | _ => false

/-- `encode_mime_header` (src/gmail/utils.rs:30): pure printable ASCII is
returned unchanged, anything else becomes an RFC 2047 base64 encoded word. -/
def encode_mime_header (text : List Char) : List Char :=
  if text.all (fun c => decide (c.toNat ≤ 127) && c != '\r' && c != '\n') then text
  else str "=?UTF-8?B?" ++ b64EncodePadded b64CharStd (utf8Bytes text) ++ str "?="

/-- `encode_raw_message` (src/gmail/utils.rs:44): URL-safe unpadded base64 of
the message's bytes; the `&str` argument is modelled by its UTF-8 bytes. -/
def encode_raw_message (message : List Nat) : List Char :=
  b64EncodeNoPad b64CharUrl message

/-- `decode_base64url` (src/gmail/utils.rs:50): try URL-safe unpadded, then
URL-safe padded, then standard padded base64. -/
def decode_base64url (data : List Char) : Option (List Nat) :=
  match b64DecodeNoPad b64IdxUrl data with
  | some v => some v
  | none =>
    match b64DecodePadded b64IdxUrl data with
    | some v => some v
    | none => b64DecodePadded b64IdxStd data

/-- `decode_base64url_string` (src/gmail/utils.rs:69): decode then require
valid UTF-8. -/
def decode_base64url_string (data : List Char) : Option (List Char) :=
  match decode_base64url data with
  | some bytes => utf8Decode bytes
  | none => none

/-! ## Composer data model (src/gmail/utils.rs:171-217) -/

/-- `MimeType` (src/gmail/utils.rs:172). -/
inductive MimeType : Type where
  | TextPlain
  | TextHtml
  | MultipartAlternative
  | MultipartMixed
deriving DecidableEq

/-- `AttachmentData` (src/gmail/utils.rs:195). -/
structure AttachmentData : Type where
  filename : List Char
  mime_type : List Char
  data : List Nat
deriving DecidableEq

/-- `EmailParams` (src/gmail/utils.rs:206). -/
structure EmailParams : Type where
  «to» : List (List Char)
  subject : List Char
  body : List Char
  html_body : Option (List Char)
  mime_type : Option MimeType
  cc : Option (List (List Char))
  bcc : Option (List (List Char))
  thread_id : Option (List Char)
  in_reply_to : Option (List Char)
  attachments : Option (List AttachmentData)
deriving DecidableEq

/-- Model of Rust's slice `join` on strings. -/
def join_sep (sep : List Char) : List (List Char) → List Char
  | [] => []
  | [x] => x
  | x :: y :: rest => x ++ sep ++ join_sep sep (y :: rest)

/-- Model of `slice::chunks(76)` over the bytes of an ASCII string. -/
def chunks76 : List Char → List (List Char)
  | [] => []
  | c :: rest => ((c :: rest).take 76) :: chunks76 ((c :: rest).drop 76)
termination_by l => l.length
decreasing_by simp; omega

/-- Lowercase hexadecimal digit. -/
def hexDigit (n : Nat) : Char :=
  if n < 10 then Char.ofNat (48 + n) else Char.ofNat (87 + n)

/-- Accumulator loop for `format!("\x7b:x\x7d", n)`. -/
def natToHexAux (n : Nat) (acc : List Char) : List Char :=
  if n = 0 then acc else natToHexAux (n / 16) (hexDigit (n % 16) :: acc)
termination_by n
decreasing_by exact Nat.div_lt_self (Nat.pos_of_ne_zero (by assumption)) (by omega)

/-- Lowercase hexadecimal rendering of a natural number
(model of `format!("\x7b:x\x7d", n)`). -/
def natToHex (n : Nat) : List Char :=
  if n = 0 then ['0'] else natToHexAux n []

/-- `generate_boundary` (src/gmail/utils.rs:440): the nanosecond timestamp,
passed in explicitly, rendered in lowercase hex. -/
def generate_boundary (timestamp : Nat) : List Char := natToHex timestamp

/-- The `multipart/mixed` boundary token (src/gmail/utils.rs:319). -/
def mixed_boundary (t : Nat) : List Char := str "----=_MixedPart_" ++ generate_boundary t

/-- The nested `multipart/alternative` boundary token (src/gmail/utils.rs:331). -/
def alt_boundary (t : Nat) : List Char := str "----=_AltPart_" ++ generate_boundary t

/-- The attachment-free `multipart/alternative` boundary token
(src/gmail/utils.rs:397). -/
def next_boundary (t : Nat) : List Char := str "----=_NextPart_" ++ generate_boundary t

/-- `has_attachments` (src/gmail/utils.rs:280). -/
def has_attachments_flag (p : EmailParams) : Bool :=
  match p.attachments with
  | some a => !a.isEmpty
  | none => false

/-- `use_html` (src/gmail/utils.rs:288): an HTML body is present and the
content-type hint (defaulted to plain text) is not plain text. -/
def use_html_flag (p : EmailParams) : Bool :=
  p.html_body.isSome && decide (p.mime_type.getD MimeType.TextPlain ≠ MimeType.TextPlain)

/-- The header block pushed by `create_email_message`
(src/gmail/utils.rs:292-315). -/
def header_block (p : EmailParams) : List (List Char) :=
  [str "From: me", str "To: " ++ join_sep (str ", ") p.«to»]
  ++ (match p.cc with
      | some cc => if cc.isEmpty then [] else [str "Cc: " ++ join_sep (str ", ") cc]
      | none => [])
  ++ (match p.bcc with
      | some bcc => if bcc.isEmpty then [] else [str "Bcc: " ++ join_sep (str ", ") bcc]
      | none => [])
  ++ [str "Subject: " ++ encode_mime_header p.subject]
  ++ (match p.in_reply_to with
      | some r => [str "In-Reply-To: " ++ r, str "References: " ++ r]
      | none => [])
  ++ [str "MIME-Version: 1.0"]

/-- A single-part body: content-type line, 7bit transfer encoding, blank
line, content (src/gmail/utils.rs:355-364 and 422-434). -/
def single_part_lines (ct : List Char) (content : List Char) : List (List Char) :=
  [ct, str "Content-Transfer-Encoding: 7bit", [], content]

/-- The two-sub-part `multipart/alternative` section: a `text/plain` part
followed by a `text/html` part, delimited by `b` (src/gmail/utils.rs:338-354
and 404-421). -/
def alt_section (b : List Char) (p : EmailParams) : List (List Char) :=
  [str "--" ++ b,
   str "Content-Type: text/plain; charset=UTF-8",
   str "Content-Transfer-Encoding: 7bit",
   [],
   p.body,
   [],
   str "--" ++ b,
   str "Content-Type: text/html; charset=UTF-8",
   str "Content-Transfer-Encoding: 7bit",
   [],
   p.html_body.getD p.body,
   [],
   str "--" ++ b ++ str "--"]

/-- One attachment sub-part (src/gmail/utils.rs:370-389): boundary opener,
headers, blank line, base64 data wrapped at 76 characters, blank line. -/
def attachment_lines (a : AttachmentData) (mb : List Char) : List (List Char) :=
  [str "--" ++ mb,
   str "Content-Type: " ++ a.mime_type ++ str "; name=\"" ++
     encode_mime_header a.filename ++ str "\"",
   str "Content-Transfer-Encoding: base64",
   str "Content-Disposition: attachment; filename=\"" ++
     encode_mime_header a.filename ++ str "\"",
   []]
  ++ chunks76 (b64EncodePadded b64CharStd a.data)
  ++ [[]]

/-- All attachment sub-parts in order (src/gmail/utils.rs:369-391). -/
def attachments_lines_all (atts : List AttachmentData) (mb : List Char) : List (List Char) :=
  match atts with
  | [] => []
  | a :: rest => attachment_lines a mb ++ attachments_lines_all rest mb

/-- The body block pushed by `create_email_message`
(src/gmail/utils.rs:317-434); `t1` and `t2` are the timestamps read by the
first and second `generate_boundary` call. -/
def body_block (t1 t2 : Nat) (p : EmailParams) : List (List Char) :=
  if has_attachments_flag p then
    (str "Content-Type: multipart/mixed; boundary=\"" ++ mixed_boundary t1 ++ str "\"")
    :: [] :: (str "--" ++ mixed_boundary t1)
    :: ((if use_html_flag p then
          (str "Content-Type: multipart/alternative; boundary=\"" ++ alt_boundary t2 ++ str "\"")
          :: [] :: alt_section (alt_boundary t2) p
        else if p.mime_type.getD MimeType.TextPlain = MimeType.TextHtml then
          single_part_lines (str "Content-Type: text/html; charset=UTF-8")
            (p.html_body.getD p.body)
        else
          single_part_lines (str "Content-Type: text/plain; charset=UTF-8") p.body)
      ++ [[]]
      ++ (match p.attachments with
          | some atts => attachments_lines_all atts (mixed_boundary t1)
          | none => [])
      ++ [str "--" ++ mixed_boundary t1 ++ str "--"])
  else if use_html_flag p then
    (str "Content-Type: multipart/alternative; boundary=\"" ++ next_boundary t1 ++ str "\"")
    :: [] :: alt_section (next_boundary t1) p
  else if p.mime_type.getD MimeType.TextPlain = MimeType.TextHtml then
    single_part_lines (str "Content-Type: text/html; charset=UTF-8") (p.html_body.getD p.body)
  else
    single_part_lines (str "Content-Type: text/plain; charset=UTF-8") p.body

/-- All lines pushed by `create_email_message` after successful validation. -/
def message_lines (t1 t2 : Nat) (p : EmailParams) : List (List Char) :=
  header_block p ++ body_block t1 t2 p

/-- The validation loop of `create_email_message` (src/gmail/utils.rs:269-277):
first entry of `to` failing `validate_email`, if any. -/
def firstInvalid : List (List Char) → Option (List Char)
  | [] => none
  | a :: rest => if validate_email a then firstInvalid rest else some a

/-- `create_email_message` (src/gmail/utils.rs:267): validate the `to`
addresses, then join all pushed lines with CRLF.  The error carries the
offending address of `ValidationError::InvalidEmail`. -/
def create_email_message (t1 t2 : Nat) (p : EmailParams) : Except (List Char) (List Char) :=
  match firstInvalid p.«to» with
  | some bad => Except.error bad
  | none => Except.ok (join_sep (str "\r\n") (message_lines t1 t2 p))

/-! ## MIME tree extraction (src/gmail/types.rs, src/gmail/utils.rs:80-160) -/

/-- `Header` (src/gmail/types.rs:38). -/
structure Header : Type where
  name : List Char
  value : List Char

/-- `MessagePartBody` (src/gmail/types.rs:49). -/
structure MessagePartBody : Type where
  attachment_id : Option (List Char)
  size : Int
  data : Option (List Char)

/-- `MessagePart` (src/gmail/types.rs:10): a recursive MIME part tree. -/
inductive MessagePart : Type where
  | mk (part_id : Option (List Char)) (mime_type : Option (List Char))
      (filename : Option (List Char)) (headers : List Header)
      (body : Option MessagePartBody) (parts : List MessagePart) : MessagePart

/-- Child parts of a node. -/
def MessagePart.parts : MessagePart → List MessagePart
  | .mk _ _ _ _ _ ps => ps

/-- `EmailContent` (src/gmail/types.rs:359). -/
structure EmailContent : Type where
  text : List Char
  html : List Char
deriving DecidableEq

/-- `EmailAttachment` (src/gmail/types.rs:369). -/
structure EmailAttachment : Type where
  id : List Char
  filename : List Char
  mime_type : List Char
  size : Int
deriving DecidableEq

/-- The node's own contribution in `extract_email_content`
(src/gmail/utils.rs:83-105): decodable inline data of a `text/plain` or
`text/html` part. -/
def extract_own (mt : Option (List Char)) (body : Option MessagePartBody) : EmailContent :=
  let mime_type := mt.getD []
  match body with
  | some b =>
    match b.data with
    | some data =>
      if (str "text/").isPrefixOf mime_type then
        match decode_base64url_string data with
        | some decoded =>
          if mime_type = str "text/plain" then { text := decoded, html := [] }
          else if mime_type = str "text/html" then { text := [], html := decoded }
          else { text := [], html := [] }
        | none => { text := [], html := [] }
      else { text := [], html := [] }
    | none => { text := [], html := [] }
  | none => { text := [], html := [] }

/-- Merging one child's result into the accumulator
(src/gmail/utils.rs:110-124): non-empty fields are appended. -/
def mergeOne (content nested : EmailContent) : EmailContent :=
  { text :=
      if !nested.text.isEmpty then
        if content.text.isEmpty then nested.text else content.text ++ nested.text
      else content.text,
    html :=
      if !nested.html.isEmpty then
        if content.html.isEmpty then nested.html else content.html ++ nested.html
      else content.html }

mutual

/-- `extract_email_content` (src/gmail/utils.rs:80). -/
def extract_email_content : MessagePart → EmailContent
  | .mk _ mt _ _ body parts => merge_children (extract_own mt body) parts

/-- The child loop of `extract_email_content` (src/gmail/utils.rs:109-125). -/
def merge_children : EmailContent → List MessagePart → EmailContent
  | content, [] => content
  | content, part :: rest => merge_children (mergeOne content (extract_email_content part)) rest

end

mutual

/-- `extract_attachments_recursive` (src/gmail/utils.rs:137): push a
descriptor for each node whose body has an attachment id, then recurse. -/
def extract_attachments_recursive : MessagePart → List EmailAttachment → List EmailAttachment
  | .mk _ mt fn _ body parts, acc =>
    let acc2 :=
      match body with
      | some b =>
        match b.attachment_id with
        | some aid =>
          acc ++ [{ id := aid,
                    filename := fn.getD (str "attachment-" ++ aid),
                    mime_type := mt.getD (str "application/octet-stream"),
                    size := b.size }]
        | none => acc
      | none => acc
    attachments_fold acc2 parts

/-- The child loop of `extract_attachments_recursive`
(src/gmail/utils.rs:157-159). -/
def attachments_fold : List EmailAttachment → List MessagePart → List EmailAttachment
  | acc, [] => acc
  | acc, part :: rest => attachments_fold (extract_attachments_recursive part acc) rest

end

/-- `extract_attachments` (src/gmail/utils.rs:131). -/
def extract_attachments (mp : MessagePart) : List EmailAttachment :=
  extract_attachments_recursive mp []

/-! ## Body assembly in `read_message` (src/gmail/client.rs:184-217) -/

/-- The body-relevant fields of `ReadMessageResult`. -/
structure ReadBodyResult : Type where
  body : List Char
  html_body : Option (List Char)
  is_html_only : Bool
deriving DecidableEq

/-- The body/html/snippet case split of `read_message`
(src/gmail/client.rs:184-196). -/
def read_message_assembly (content : EmailContent) (snippet : Option (List Char)) :
    ReadBodyResult :=
  let is_html_only := content.text.isEmpty && !content.html.isEmpty
  if !content.text.isEmpty then
    { body := content.text,
      html_body := if content.html.isEmpty then none else some content.html,
      is_html_only := is_html_only }
  else if !content.html.isEmpty then
    { body := content.html, html_body := some content.html, is_html_only := is_html_only }
  else
    { body := snippet.getD [], html_body := none, is_html_only := is_html_only }

/-! ## Helper lemmas: base64 roundtrips -/

/-- Induction on a list in steps of three elements. -/
theorem list3_induction {α : Type} (P : List α → Prop) (h0 : P []) (h1 : ∀ a, P [a])
    (h2 : ∀ a b, P [a, b]) (h3 : ∀ a b c rest, P rest → P (a :: b :: c :: rest)) :
    ∀ l, P l
  | [] => h0
  | [a] => h1 a
  | [a, b] => h2 a b
  | a :: b :: c :: rest => h3 a b c rest (list3_induction P h0 h1 h2 h3 rest)

theorem b64IdxUrl_b64CharUrl : ∀ s, s < 64 → b64IdxUrl (b64CharUrl s) = some s := by decide

theorem b64IdxStd_b64CharStd : ∀ s, s < 64 → b64IdxStd (b64CharStd s) = some s := by decide

/-- Unpadded decoding inverts unpadded encoding, for any alphabet whose
index function inverts it on sextets. -/
theorem b64DecodeNoPad_b64EncodeNoPad (alpha : Nat → Char) (idx : Char → Option Nat)
    (hidx : ∀ s, s < 64 → idx (alpha s) = some s) (l : List Nat) (hl : ∀ x ∈ l, x < 256) :
    b64DecodeNoPad idx (b64EncodeNoPad alpha l) = some l := by
  induction l using list3_induction with
  | h0 => rfl
  | h1 a =>
    have ha : a < 256 := hl a (by simp)
    have e1 : a / 4 < 64 := by omega
    have e2 : a % 4 * 16 < 64 := by omega
    simp only [b64EncodeNoPad, b64DecodeNoPad]
    rw [hidx _ e1, hidx _ e2]
    simp only [b64Group2]
    rw [if_pos (by omega)]
    simp <;> omega
  | h2 a b =>
    have ha : a < 256 := hl a (by simp)
    have hb : b < 256 := hl b (by simp)
    have e1 : a / 4 < 64 := by omega
    have e2 : a % 4 * 16 + b / 16 < 64 := by omega
    have e3 : b % 16 * 4 < 64 := by omega
    simp only [b64EncodeNoPad, b64DecodeNoPad]
    rw [hidx _ e1, hidx _ e2, hidx _ e3]
    simp only [b64Group3]
    rw [if_pos (by omega)]
    simp <;> omega
  | h3 a b c rest ih =>
    have ha : a < 256 := hl a (by simp)
    have hb : b < 256 := hl b (by simp)
    have hc : c < 256 := hl c (by simp)
    have hrest : ∀ x ∈ rest, x < 256 := fun x hx => hl x (by simp [hx])
    have e1 : a / 4 < 64 := by omega
    have e2 : a % 4 * 16 + b / 16 < 64 := by omega
    have e3 : b % 16 * 4 + c / 64 < 64 := by omega
    have e4 : c % 64 < 64 := by omega
    simp only [b64EncodeNoPad, b64DecodeNoPad]
    rw [hidx _ e1, hidx _ e2, hidx _ e3, hidx _ e4, ih hrest]
    simp only [b64Group4]
    simp <;> omega

/-- Claim C3: for every byte sequence `b`, including the empty sequence,
decoding the transport encoding of `b` recovers `b` exactly:
`decode_base64url (encode_raw_message b)` succeeds and returns `b`. -/
theorem claim_C3 (b : List Nat) (hb : ∀ x ∈ b, x < 256) :
    decode_base64url (encode_raw_message b) = some b := by
  unfold decode_base64url encode_raw_message
  rw [b64DecodeNoPad_b64EncodeNoPad b64CharUrl b64IdxUrl b64IdxUrl_b64CharUrl b hb]

theorem claim_C3_witness :
    (∀ x ∈ [0, 77, 255, 10], x < 256) ∧
      decode_base64url (encode_raw_message [0, 77, 255, 10]) = some [0, 77, 255, 10] :=
  ⟨by decide, claim_C3 [0, 77, 255, 10] (by decide)⟩

/-- An element equal to the optional last element is a member. -/
theorem getLast?_mem_self {l : List Char} {a : Char} (h : l.getLast? = some a) : a ∈ l := by
  have hm : a ∈ l.getLast? := by simp [Option.mem_def, h]
  obtain ⟨hne, rfl⟩ := List.mem_getLast?_eq_getLast hm
  exact List.getLast_mem hne

/-- Length of an unpadded base64 encoding. -/
theorem b64EncodeNoPad_length (alpha : Nat → Char) (l : List Nat) :
    (b64EncodeNoPad alpha l).length =
      4 * (l.length / 3) +
        (if l.length % 3 = 1 then 2 else if l.length % 3 = 2 then 3 else 0) := by
  induction l using list3_induction with
  | h0 => simp [b64EncodeNoPad]
  | h1 a => simp [b64EncodeNoPad]
  | h2 a b => simp [b64EncodeNoPad]
  | h3 a b c rest ih =>
    simp only [b64EncodeNoPad, List.length_cons, ih]
    split_ifs with i1 i2 i3 i4 <;> omega

/-- Every character of an unpadded base64 encoding is an image of the
alphabet function. -/
theorem mem_b64EncodeNoPad (alpha : Nat → Char) (l : List Nat) (c : Char)
    (hc : c ∈ b64EncodeNoPad alpha l) : ∃ n, c = alpha n := by
  induction l using list3_induction with
  | h0 => simp [b64EncodeNoPad] at hc
  | h1 a =>
    simp only [b64EncodeNoPad, List.mem_cons, List.mem_singleton] at hc
    rcases hc with h | h | h
    · exact ⟨a / 4, h⟩
    · exact ⟨a % 4 * 16, h⟩
    · simp at h
  | h2 a b =>
    simp only [b64EncodeNoPad, List.mem_cons, List.mem_singleton] at hc
    rcases hc with h | h | h | h
    · exact ⟨a / 4, h⟩
    · exact ⟨a % 4 * 16 + b / 16, h⟩
    · exact ⟨b % 16 * 4, h⟩
    · simp at h
  | h3 a b c' rest ih =>
    simp only [b64EncodeNoPad, List.mem_cons] at hc
    rcases hc with h | h | h | h | h
    · exact ⟨a / 4, h⟩
    · exact ⟨a % 4 * 16 + b / 16, h⟩
    · exact ⟨b % 16 * 4 + c' / 64, h⟩
    · exact ⟨c' % 64, h⟩
    · exact ih h

/-- Every value of the standard alphabet function lies in the standard
alphabet list. -/
theorem b64CharStd_mem (n : Nat) : b64CharStd n ∈ b64AlphabetStd := by
  unfold b64CharStd
  by_cases h : n < 64
  · rw [List.getD_eq_getElem b64AlphabetStd 'A' (by simpa using h)]
    exact List.getElem_mem _
  · rw [List.getD_eq_default b64AlphabetStd 'A' (by simpa using Nat.le_of_not_lt h)]
    decide

theorem b64AlphabetStd_no_eq : ∀ c ∈ b64AlphabetStd, c ≠ '=' ∧ c ≠ '\n' := by decide

/-- The standard alphabet function never produces a padding character. -/
theorem b64CharStd_ne_pad (n : Nat) : b64CharStd n ≠ '=' :=
  (b64AlphabetStd_no_eq _ (b64CharStd_mem n)).1

/-- Canonically padded decoding inverts padded encoding over the standard
alphabet. -/
theorem b64DecodePadded_b64EncodePadded (l : List Nat) (hl : ∀ x ∈ l, x < 256) :
    b64DecodePadded b64IdxStd (b64EncodePadded b64CharStd l) = some l := by
  have hrt := b64DecodeNoPad_b64EncodeNoPad b64CharStd b64IdxStd b64IdxStd_b64CharStd l hl
  have hlen := b64EncodeNoPad_length b64CharStd l
  have hne : ∀ c ∈ b64EncodeNoPad b64CharStd l, c ≠ '=' := by
    intro c hc
    obtain ⟨n, rfl⟩ := mem_b64EncodeNoPad b64CharStd l c hc
    exact b64CharStd_ne_pad n
  unfold b64EncodePadded b64DecodePadded
  have h3cases : l.length % 3 = 0 ∨ l.length % 3 = 1 ∨ l.length % 3 = 2 := by omega
  rcases h3cases with h3 | h3 | h3
  · -- no padding
    have hpad : (if l.length % 3 = 1 then ['=', '='] else
        if l.length % 3 = 2 then ['='] else ([] : List Char)) = [] := by rw [h3]; simp
    rw [hpad, List.append_nil]
    rw [if_pos (by rw [hlen, h3] <;> simp <;> omega)]
    rcases hlast : (b64EncodeNoPad b64CharStd l).getLast? with _ | c
    · simpa [hlast] using hrt
    · rw [if_neg (by simpa using hne c (getLast?_mem_self hlast))]
      exact hrt
  · -- two padding characters
    have hpad : (if l.length % 3 = 1 then ['=', '='] else
        if l.length % 3 = 2 then ['='] else ([] : List Char)) = ['=', '='] := by rw [h3]; simp
    rw [hpad]
    have hsplit : b64EncodeNoPad b64CharStd l ++ ['=', '='] =
        (b64EncodeNoPad b64CharStd l ++ ['=']) ++ ['='] := by simp
    rw [hsplit]
    rw [if_pos (by simp [List.length_append, hlen, h3] <;> omega)]
    rw [List.getLast?_concat, if_pos rfl, List.dropLast_concat, List.getLast?_concat,
      if_pos rfl, List.dropLast_concat]
    exact hrt
  · -- one padding character
    have hpad : (if l.length % 3 = 1 then ['=', '='] else
        if l.length % 3 = 2 then ['='] else ([] : List Char)) = ['='] := by rw [h3]; simp
    rw [hpad]
    rw [if_pos (by simp [List.length_append, hlen, h3] <;> omega)]
    rw [List.getLast?_concat, if_pos rfl, List.dropLast_concat]
    have hlenpos : (b64EncodeNoPad b64CharStd l).length = 4 * (l.length / 3) + 3 := by
      rw [hlen, h3]; simp
    have hnenil : b64EncodeNoPad b64CharStd l ≠ [] := by
      intro h; rw [h] at hlenpos; simp at hlenpos
    obtain ⟨c, hlast⟩ : ∃ c, (b64EncodeNoPad b64CharStd l).getLast? = some c :=
      ⟨_, List.getLast?_eq_getLast_of_ne_nil hnenil⟩
    rw [hlast, if_neg (by simpa using hne c (getLast?_mem_self hlast))]
    exact hrt

/-- Concatenating the 76-character chunks restores the original string. -/
theorem chunks76_flatten_aux : ∀ n (l : List Char), l.length ≤ n → (chunks76 l).flatten = l := by
  intro n
  induction n with
  | zero =>
    intro l h
    have : l = [] := List.eq_nil_of_length_eq_zero (Nat.le_zero.mp h)
    subst this; simp [chunks76]
  | succ n ih =>
    intro l h
    cases l with
    | nil => simp [chunks76]
    | cons c rest =>
      rw [chunks76, List.flatten_cons]
      rw [ih ((c :: rest).drop 76)
        (by simp only [List.length_drop, List.length_cons]
            simp only [List.length_cons] at h
            omega)]
      exact List.take_append_drop 76 (c :: rest)

theorem chunks76_flatten (l : List Char) : (chunks76 l).flatten = l :=
  chunks76_flatten_aux l.length l le_rfl

/-- A nonempty string has a nonempty chunk list. -/
theorem chunks76_ne_nil (c : Char) (rest : List Char) : chunks76 (c :: rest) ≠ [] := by
  rw [chunks76]; simp

/-- Every chunk except possibly the last is exactly 76 characters long. -/
theorem chunks76_dropLast_length_aux :
    ∀ n (l : List Char), l.length ≤ n → ∀ x ∈ (chunks76 l).dropLast, x.length = 76 := by
  intro n
  induction n with
  | zero =>
    intro l h
    have : l = [] := List.eq_nil_of_length_eq_zero (Nat.le_zero.mp h)
    subst this; simp [chunks76]
  | succ n ih =>
    intro l h x hx
    cases l with
    | nil => simp [chunks76] at hx
    | cons c rest =>
      rw [chunks76] at hx
      rcases hd : chunks76 ((c :: rest).drop 76) with _ | ⟨y, ys⟩
      · rw [hd] at hx; simp at hx
      · rw [hd, List.dropLast_cons₂] at hx
        rcases List.mem_cons.mp hx with h1 | h2
        · subst h1
          have hlong : 76 < (c :: rest).length := by
            by_contra hle
            have : (c :: rest).drop 76 = [] := by
              apply List.drop_eq_nil_of_le; omega
            rw [this] at hd; simp [chunks76] at hd
          simp only [List.length_cons] at hlong
          simp [List.length_take, List.length_cons]
          omega
        · have := ih ((c :: rest).drop 76)
            (by simp only [List.length_drop, List.length_cons]
                simp only [List.length_cons] at h
                omega) x
          rw [hd] at this
          exact this h2

theorem chunks76_dropLast_length (l : List Char) :
    ∀ x ∈ (chunks76 l).dropLast, x.length = 76 :=
  chunks76_dropLast_length_aux l.length l le_rfl

/-- Claim C5: each attachment's section in the composed message consists of
its header lines, the base64 lines, and a blank line; every base64 line
except possibly the last is exactly 76 characters; and concatenating all the
base64 lines and standard-base64-decoding the result yields the attachment's
original raw bytes exactly. -/
theorem claim_C5 (a : AttachmentData) (mb : List Char) (h : ∀ x ∈ a.data, x < 256) :
    attachment_lines a mb
      = [str "--" ++ mb,
         str "Content-Type: " ++ a.mime_type ++ str "; name=\"" ++
           encode_mime_header a.filename ++ str "\"",
         str "Content-Transfer-Encoding: base64",
         str "Content-Disposition: attachment; filename=\"" ++
           encode_mime_header a.filename ++ str "\"",
         []]
        ++ chunks76 (b64EncodePadded b64CharStd a.data) ++ [[]]
    ∧ (∀ ln ∈ (chunks76 (b64EncodePadded b64CharStd a.data)).dropLast, ln.length = 76)
    ∧ b64DecodePadded b64IdxStd (chunks76 (b64EncodePadded b64CharStd a.data)).flatten
        = some a.data := by
  refine ⟨by simp [attachment_lines], chunks76_dropLast_length _, ?_⟩
  rw [chunks76_flatten]
  exact b64DecodePadded_b64EncodePadded a.data h

theorem claim_C5_witness :
    (∀ x ∈ [104, 105, 255], x < 256) ∧
      (attachment_lines ⟨str "f.bin", str "application/octet-stream", [104, 105, 255]⟩ (str "B")
          = [str "--" ++ str "B",
             str "Content-Type: " ++ str "application/octet-stream" ++ str "; name=\"" ++
               encode_mime_header (str "f.bin") ++ str "\"",
             str "Content-Transfer-Encoding: base64",
             str "Content-Disposition: attachment; filename=\"" ++
               encode_mime_header (str "f.bin") ++ str "\"",
             []]
            ++ chunks76 (b64EncodePadded b64CharStd [104, 105, 255]) ++ [[]]
        ∧ (∀ ln ∈ (chunks76 (b64EncodePadded b64CharStd [104, 105, 255])).dropLast,
            ln.length = 76)
        ∧ b64DecodePadded b64IdxStd
            (chunks76 (b64EncodePadded b64CharStd [104, 105, 255])).flatten
            = some [104, 105, 255]) :=
  ⟨by decide,
    claim_C5 ⟨str "f.bin", str "application/octet-stream", [104, 105, 255]⟩ (str "B") (by decide)⟩

/-! ## Address validation in the composer (claim C2) -/

/-- The validation loop stops at the first invalid entry. -/
theorem firstInvalid_append (pre : List (List Char)) (bad : List Char) (suf : List (List Char))
    (hpre : ∀ a ∈ pre, validate_email a = true) (hbad : validate_email bad = false) :
    firstInvalid (pre ++ bad :: suf) = some bad := by
  induction pre with
  | nil => simp [firstInvalid, hbad]
  | cons a rest ih =>
    have ha : validate_email a = true := hpre a (by simp)
    simp only [List.cons_append, firstInvalid, ha, if_true]
    exact ih fun x hx => hpre x (by simp [hx])

/-- When every entry validates, the loop finds nothing. -/
theorem firstInvalid_none (l : List (List Char)) (h : ∀ a ∈ l, validate_email a = true) :
    firstInvalid l = none := by
  induction l with
  | nil => rfl
  | cons a rest ih =>
    have ha : validate_email a = true := h a (by simp)
    simp only [firstInvalid, ha, if_true]
    exact ih fun x hx => h x (by simp [hx])

/-- Claim C2: composition fails with `InvalidAddress` naming the first `to`
address (in list order) failing the validator, producing no message text; and
when every `to` address validates, composition never fails on addresses —
`cc` and `bcc` entries are never validated. -/
theorem claim_C2 (t1 t2 : Nat) (p : EmailParams) :
    (∀ pre bad suf, p.«to» = pre ++ bad :: suf →
        (∀ a ∈ pre, validate_email a = true) → validate_email bad = false →
        create_email_message t1 t2 p = Except.error bad)
    ∧ ((∀ a ∈ p.«to», validate_email a = true) →
        create_email_message t1 t2 p
          = Except.ok (join_sep (str "\r\n") (message_lines t1 t2 p))) := by
  constructor
  · intro pre bad suf hto hpre hbad
    unfold create_email_message
    rw [hto, firstInvalid_append pre bad suf hpre hbad]
  · intro hall
    unfold create_email_message
    rw [firstInvalid_none p.«to» hall]

theorem claim_C2_witness :
    (let pbad : EmailParams :=
      { «to» := [str "a@b.co", str "nope"], subject := [], body := [], html_body := none,
        mime_type := none, cc := some [str "bad cc"], bcc := none, thread_id := none,
        in_reply_to := none, attachments := none }
     create_email_message 0 0 pbad = Except.error (str "nope"))
    ∧ (let pgood : EmailParams :=
        { «to» := [str "a@b.co"], subject := [], body := [], html_body := none,
          mime_type := none, cc := some [str "bad cc"], bcc := none, thread_id := none,
          in_reply_to := none, attachments := none }
       create_email_message 0 0 pgood
         = Except.ok (join_sep (str "\r\n") (message_lines 0 0 pgood))) := by
  constructor
  · exact (claim_C2 0 0 _).1 [str "a@b.co"] (str "nope") [] (by decide) (by decide) (by decide)
  · exact (claim_C2 0 0 _).2 (by decide)

/-- Claim C10: the composed message never depends on `thread_id`; any two
parameter values equal in every field except `thread_id` give the same
outcome. -/
theorem claim_C10 (t1 t2 : Nat) (p : EmailParams) (tid : Option (List Char)) :
    create_email_message t1 t2 { p with thread_id := tid } = create_email_message t1 t2 p := by
  cases p; rfl

/-! ## Body assembly (claim C9) -/

/-- Claim C9: the assembled read result satisfies exactly this case split —
non-empty extracted text wins, else non-empty html is copied into both
fields, else the snippet (defaulted to empty) is the body; and
`is_html_only` holds iff text was empty and html non-empty. -/
theorem claim_C9 (content : EmailContent) (snippet : Option (List Char)) :
    (content.text ≠ [] →
      (read_message_assembly content snippet).body = content.text
      ∧ (read_message_assembly content snippet).html_body
          = (if content.html = [] then none else some content.html))
    ∧ (content.text = [] → content.html ≠ [] →
      (read_message_assembly content snippet).body = content.html
      ∧ (read_message_assembly content snippet).html_body = some content.html)
    ∧ (content.text = [] → content.html = [] →
      (read_message_assembly content snippet).body = snippet.getD []
      ∧ (read_message_assembly content snippet).html_body = none)
    ∧ ((read_message_assembly content snippet).is_html_only = true
        ↔ (content.text = [] ∧ content.html ≠ [])) := by
  unfold read_message_assembly
  refine ⟨?_, ?_, ?_, ?_⟩
  · intro ht
    rw [if_pos (by simp [List.isEmpty_iff, ht])]
    constructor
    · rfl
    · split_ifs with h1 h2 h3 <;> simp_all [List.isEmpty_iff]
  · intro ht hh
    rw [if_neg (by simp [List.isEmpty_iff, ht]), if_pos (by simp [List.isEmpty_iff, hh])]
    exact ⟨rfl, rfl⟩
  · intro ht hh
    rw [if_neg (by simp [List.isEmpty_iff, ht]), if_neg (by simp [List.isEmpty_iff, hh])]
    exact ⟨rfl, rfl⟩
  · split_ifs <;> simp_all [List.isEmpty_iff]

theorem claim_C9_witness :
    ((read_message_assembly ⟨str "t", str "h"⟩ (some (str "s"))).body = str "t"
      ∧ (read_message_assembly ⟨str "t", str "h"⟩ (some (str "s"))).html_body
          = (if str "h" = ([] : List Char) then none else some (str "h")))
    ∧ ((read_message_assembly ⟨[], str "h"⟩ none).body = str "h"
      ∧ (read_message_assembly ⟨[], str "h"⟩ none).html_body = some (str "h"))
    ∧ ((read_message_assembly ⟨[], []⟩ (some (str "s"))).body = (some (str "s")).getD []
      ∧ (read_message_assembly ⟨[], []⟩ (some (str "s"))).html_body = none)
    ∧ ((read_message_assembly ⟨[], str "h"⟩ none).is_html_only = true
        ↔ (([] : List Char) = [] ∧ str "h" ≠ [])) :=
  ⟨(claim_C9 ⟨str "t", str "h"⟩ (some (str "s"))).1 (by decide),
   (claim_C9 ⟨[], str "h"⟩ none).2.1 rfl (by decide),
   (claim_C9 ⟨[], []⟩ (some (str "s"))).2.2.1 rfl rfl,
   (claim_C9 ⟨[], str "h"⟩ none).2.2.2⟩

/-! ## Boundary distinctness (claim C6) -/

/-- The mixed-section and alternative-section boundary tokens differ for all
generator outputs: their literal prefixes differ at index 6. -/
theorem mixed_boundary_ne_alt_boundary (t1 t2 : Nat) : mixed_boundary t1 ≠ alt_boundary t2 := by
  intro h
  have h6 := congrArg (fun l => l[6]?) h
  simp only [mixed_boundary, alt_boundary, generate_boundary] at h6
  rw [List.getElem?_append_left (by decide), List.getElem?_append_left (by decide)] at h6
  exact absurd h6 (by decide)

/-- Claim C6: a composed message with both a multipart/mixed section and a
nested multipart/alternative section carries both content-type lines, and the
two boundary tokens are distinct strings for every pair of generator
timestamps, including equal ones. -/
theorem claim_C6 (t1 t2 : Nat) (p : EmailParams) (ha : has_attachments_flag p = true)
    (hu : use_html_flag p = true) :
    (str "Content-Type: multipart/mixed; boundary=\"" ++ mixed_boundary t1 ++ str "\"")
      ∈ message_lines t1 t2 p
    ∧ (str "Content-Type: multipart/alternative; boundary=\"" ++ alt_boundary t2 ++ str "\"")
      ∈ message_lines t1 t2 p
    ∧ mixed_boundary t1 ≠ alt_boundary t2 := by
  refine ⟨?_, ?_, mixed_boundary_ne_alt_boundary t1 t2⟩
  · unfold message_lines body_block
    rw [if_pos ha]
    simp
  · unfold message_lines body_block
    rw [if_pos ha, if_pos hu]
    simp

/-- A concrete message with one attachment and an HTML body, composed with
the two generator calls returning the same timestamp. -/
def emailParamsC6 : EmailParams :=
  { «to» := [str "a@b.co"], subject := str "S", body := str "B",
    html_body := some (str "<p>B</p>"), mime_type := some MimeType.TextHtml, cc := none,
    bcc := none, thread_id := none, in_reply_to := none,
    attachments := some [⟨str "f.txt", str "text/plain", [104]⟩] }

theorem claim_C6_witness :
    (str "Content-Type: multipart/mixed; boundary=\"" ++ mixed_boundary 5 ++ str "\"")
      ∈ message_lines 5 5 emailParamsC6
    ∧ (str "Content-Type: multipart/alternative; boundary=\"" ++ alt_boundary 5 ++ str "\"")
      ∈ message_lines 5 5 emailParamsC6
    ∧ mixed_boundary 5 ≠ alt_boundary 5 :=
  claim_C6 5 5 emailParamsC6 (by decide) (by decide)

/-! ## Extraction never fails; malformed nodes are skipped (claim C7) -/

/-- A node whose inline data fails decoding contributes nothing to the
content accumulator. -/
theorem extract_own_decode_failed (mt : Option (List Char)) (aid : Option (List Char))
    (sz : Int) (d : List Char) (hfail : decode_base64url_string d = none) :
    extract_own mt (some ⟨aid, sz, some d⟩) = { text := [], html := [] } := by
  unfold extract_own
  simp only [hfail]
  split <;> rfl

/-- Claim C7: extraction is total — a node whose inline body data fails
base64 or UTF-8 decoding contributes nothing to the extracted content, and
attachment extraction is unaffected by the malformed data; contributions of
all child parts are still merged. -/
theorem claim_C7 (pid mt fn : Option (List Char)) (hd : List Header)
    (aid : Option (List Char)) (sz : Int) (d : List Char) (parts : List MessagePart)
    (hfail : decode_base64url_string d = none) :
    extract_email_content (.mk pid mt fn hd (some ⟨aid, sz, some d⟩) parts)
      = extract_email_content (.mk pid mt fn hd none parts)
    ∧ extract_attachments (.mk pid mt fn hd (some ⟨aid, sz, some d⟩) parts)
      = extract_attachments (.mk pid mt fn hd (some ⟨aid, sz, none⟩) parts) := by
  constructor
  · rw [extract_email_content, extract_email_content,
      extract_own_decode_failed mt aid sz d hfail]
    rfl
  · rw [extract_attachments, extract_attachments,
      extract_attachments_recursive, extract_attachments_recursive]

/-- A well-formed `text/plain` leaf carrying base64url "hi". -/
def goodLeaf : MessagePart :=
  .mk none (some (str "text/plain")) none [] (some ⟨none, 0, some (str "aGk")⟩) []

theorem claim_C7_witness :
    decode_base64url_string (str "!") = none
    ∧ extract_email_content
        (.mk none (some (str "text/plain")) none [] (some ⟨none, 0, some (str "!")⟩) [goodLeaf])
      = extract_email_content (.mk none (some (str "text/plain")) none [] none [goodLeaf])
    ∧ extract_attachments
        (.mk none (some (str "text/plain")) none []
          (some ⟨some (str "A1"), 7, some (str "!")⟩) [goodLeaf])
      = extract_attachments
          (.mk none (some (str "text/plain")) none []
            (some ⟨some (str "A1"), 7, none⟩) [goodLeaf]) :=
  ⟨by decide,
   (claim_C7 none (some (str "text/plain")) none [] none 0 (str "!") [goodLeaf] (by decide)).1,
   (claim_C7 none (some (str "text/plain")) none [] (some (str "A1")) 7 (str "!") [goodLeaf]
     (by decide)).2⟩

/-! ## Pre-order concatenation of text contributions (claim C8) -/

/-- Modelled from the spec for comparison with the source definition
(claim C8): a node's own successfully decoded `text/plain` text. -/
def preorder_plain_own (mt : Option (List Char)) (body : Option MessagePartBody) : List Char :=
  match body with
  | some b =>
    match b.data with
    | some data =>
      match decode_base64url_string data with
      | some decoded => if mt.getD [] = str "text/plain" then decoded else []
      | none => []
    | none => []
  | none => []

/-- Modelled from the spec for comparison with the source definition
(claim C8): a node's own successfully decoded `text/html` text. -/
def preorder_html_own (mt : Option (List Char)) (body : Option MessagePartBody) : List Char :=
  match body with
  | some b =>
    match b.data with
    | some data =>
      match decode_base64url_string data with
      | some decoded => if mt.getD [] = str "text/html" then decoded else []
      | none => []
    | none => []
  | none => []

mutual

/-- Modelled from the spec (claim C8): concatenation, in pre-order traversal
order, of every successfully decoded `text/plain` contribution. -/
def preorder_plain : MessagePart → List Char
  | .mk _ mt _ _ body parts => preorder_plain_own mt body ++ preorder_plain_list parts

/-- Pre-order `text/plain` concatenation over a child list, in listed order. -/
def preorder_plain_list : List MessagePart → List Char
  | [] => []
  | q :: rest => preorder_plain q ++ preorder_plain_list rest

end

mutual

/-- Modelled from the spec (claim C8): concatenation, in pre-order traversal
order, of every successfully decoded `text/html` contribution. -/
def preorder_html : MessagePart → List Char
  | .mk _ mt _ _ body parts => preorder_html_own mt body ++ preorder_html_list parts

/-- Pre-order `text/html` concatenation over a child list, in listed order. -/
def preorder_html_list : List MessagePart → List Char
  | [] => []
  | q :: rest => preorder_html q ++ preorder_html_list rest

end

/-- Induction over the MIME part tree with the hypothesis available on every
child. -/
theorem MessagePart.induct_mem {P : MessagePart → Prop}
    (h : ∀ pid mt fn hd bd parts, (∀ q ∈ parts, P q) → P (.mk pid mt fn hd bd parts)) :
    ∀ mp, P mp
  | .mk pid mt fn hd bd parts =>
    h pid mt fn hd bd parts fun q hq => MessagePart.induct_mem h q
termination_by mp => sizeOf mp
decreasing_by
  have := List.sizeOf_lt_of_mem hq
  simp
  omega

/-- The source-side own contribution agrees with the spec-side one. -/
theorem extract_own_eq_preorder_own (mt : Option (List Char)) (body : Option MessagePartBody) :
    (extract_own mt body).text = preorder_plain_own mt body
    ∧ (extract_own mt body).html = preorder_html_own mt body := by
  unfold extract_own preorder_plain_own preorder_html_own
  rcases body with _ | ⟨aid, sz, data⟩
  · exact ⟨rfl, rfl⟩
  · rcases data with _ | d
    · exact ⟨rfl, rfl⟩
    · rcases hdec : decode_base64url_string d with _ | dec
      · simp only [hdec]
        split <;> exact ⟨rfl, rfl⟩
      · simp only [hdec]
        by_cases hpre : (str "text/").isPrefixOf (mt.getD []) = true
        · rw [if_pos hpre]
          by_cases hp : mt.getD [] = str "text/plain"
          · have hh : ¬ (mt.getD [] = str "text/html") := by rw [hp]; decide
            have hne : ¬ (str "text/plain" = str "text/html") := by decide
            simp [hp, hh, hne]
          · by_cases hh : mt.getD [] = str "text/html"
            · have hne : ¬ (str "text/html" = str "text/plain") := by decide
              simp [hp, hh, hne]
            · simp [hp, hh]
        · have hp : ¬ (mt.getD [] = str "text/plain") := fun h => hpre (by rw [h]; decide)
          have hh : ¬ (mt.getD [] = str "text/html") := fun h => hpre (by rw [h]; decide)
          rw [if_neg hpre]
          simp [hp, hh]

/-- Merging appends the nested text (appending an empty field is a no-op, so
both branches of the source's `if` agree with plain concatenation). -/
theorem mergeOne_text (a n : EmailContent) : (mergeOne a n).text = a.text ++ n.text := by
  unfold mergeOne
  split_ifs with h1 h2 <;> simp_all [List.isEmpty_iff]

theorem mergeOne_html (a n : EmailContent) : (mergeOne a n).html = a.html ++ n.html := by
  unfold mergeOne
  split_ifs with h1 h2 <;> simp_all [List.isEmpty_iff]

/-- The child loop concatenates the children's pre-order contributions after
the accumulator, in listed order. -/
theorem merge_children_spec (parts : List MessagePart)
    (IH : ∀ q ∈ parts, (extract_email_content q).text = preorder_plain q
        ∧ (extract_email_content q).html = preorder_html q) :
    ∀ acc, (merge_children acc parts).text = acc.text ++ preorder_plain_list parts
      ∧ (merge_children acc parts).html = acc.html ++ preorder_html_list parts := by
  induction parts with
  | nil => intro acc; simp [merge_children, preorder_plain_list, preorder_html_list]
  | cons q rest ih =>
    intro acc
    have hq := IH q (by simp)
    have hrest := ih (fun r hr => IH r (by simp [hr])) (mergeOne acc (extract_email_content q))
    rw [merge_children, preorder_plain_list, preorder_html_list]
    rw [hrest.1, hrest.2, mergeOne_text, mergeOne_html, hq.1, hq.2]
    simp [List.append_assoc]

/-- Claim C8: `extract_email_content` returns in `text` the concatenation,
in pre-order traversal order (a node's own contribution before its children,
children in listed order), of every successfully decoded `text/plain`
contribution — and likewise for `html` with `text/html`; later contributions
are appended, never replace earlier ones. -/
theorem claim_C8 (mp : MessagePart) :
    (extract_email_content mp).text = preorder_plain mp
    ∧ (extract_email_content mp).html = preorder_html mp := by
  induction mp using MessagePart.induct_mem with
  | h pid mt fn hd bd parts IH =>
    rw [extract_email_content, preorder_plain, preorder_html]
    have hown := extract_own_eq_preorder_own mt bd
    have hmc := merge_children_spec parts IH (extract_own mt bd)
    rw [hmc.1, hmc.2, hown.1, hown.2]
    exact ⟨rfl, rfl⟩

/-! ## The multipart/alternative structure appears iff `use_html` (claim C4) -/

/-- A single-part content-type literal is never an alternative-section
content-type line, whatever follows the literal prefix. -/
theorem ct_literal_ne_alt_line (ct tail : List Char)
    (h : ct = str "Content-Type: text/plain; charset=UTF-8"
      ∨ ct = str "Content-Type: text/html; charset=UTF-8") :
    ct ≠ str "Content-Type: multipart/alternative; boundary=\"" ++ tail := by
  intro heq
  have h20 := congrArg (List.take 20) heq
  rw [List.take_append_of_le_length (by
      have h47 : (str "Content-Type: multipart/alternative; boundary=\"").length = 47 := by
        decide
      omega)] at h20
  rcases h with rfl | rfl <;> exact absurd h20 (by decide)

theorem claim_C4 (t1 t2 : Nat) (p : EmailParams) :
    use_html_flag p = true ↔
      ∃ b post,
        (message_lines t1 t2 p).drop
            ((header_block p).length + (if has_attachments_flag p then 3 else 0))
          = (str "Content-Type: multipart/alternative; boundary=\"" ++ b ++ str "\"")
            :: [] :: (alt_section b p ++ post) := by
  constructor
  · intro hu
    by_cases ha : has_attachments_flag p = true
    · refine ⟨alt_boundary t2,
        [[]] ++ (match p.attachments with
          | some atts => attachments_lines_all atts (mixed_boundary t1)
          | none => []) ++ [str "--" ++ mixed_boundary t1 ++ str "--"], ?_⟩
      unfold message_lines body_block
      simp only [ha, hu, if_true, List.drop_append]
      simp [List.append_assoc]
    · have ha2 : has_attachments_flag p = false := by
        revert ha; cases has_attachments_flag p <;> simp
      refine ⟨next_boundary t1, [], ?_⟩
      unfold message_lines body_block
      simp only [ha2, hu, Bool.false_eq_true, if_false, if_true, Nat.add_zero, List.drop_left]
      simp
  · intro ⟨b, post, heq⟩
    by_contra hu
    have hu2 : use_html_flag p = false := by
      revert hu; cases use_html_flag p <;> simp
    by_cases ha : has_attachments_flag p = true
    · unfold message_lines body_block at heq
      simp only [ha, hu2, Bool.false_eq_true, if_false, if_true, List.drop_append] at heq
      by_cases hm : p.mime_type.getD MimeType.TextPlain = MimeType.TextHtml
      · rw [if_pos hm] at heq
        have hhead := congrArg List.head? heq
        simp [single_part_lines] at hhead
        exact ct_literal_ne_alt_line _ _ (Or.inr rfl) hhead
      · rw [if_neg hm] at heq
        have hhead := congrArg List.head? heq
        simp [single_part_lines] at hhead
        exact ct_literal_ne_alt_line _ _ (Or.inl rfl) hhead
    · have ha2 : has_attachments_flag p = false := by
        revert ha; cases has_attachments_flag p <;> simp
      unfold message_lines body_block at heq
      simp only [ha2, hu2, Bool.false_eq_true, if_false, Nat.add_zero, List.drop_left] at heq
      by_cases hm : p.mime_type.getD MimeType.TextPlain = MimeType.TextHtml
      · rw [if_pos hm] at heq
        have hhead := congrArg List.head? heq
        simp [single_part_lines] at hhead
        exact ct_literal_ne_alt_line _ _ (Or.inr rfl) hhead
      · rw [if_neg hm] at heq
        have hhead := congrArg List.head? heq
        simp [single_part_lines] at hhead
        exact ct_literal_ne_alt_line _ _ (Or.inl rfl) hhead

/-! ## Line-separator discipline (claim C1) -/

/-- Scan of the CRLF discipline: every line feed must be immediately
preceded by a carriage return; `prev` is the previous character. -/
def noLoneLFFrom (prev : Char) : List Char → Bool
  | [] => true
  | c :: rest => (c != '\n' || prev == '\r') && noLoneLFFrom c rest

/-- No lone line feed anywhere in the text (the initial previous character
is arbitrary but not a carriage return). -/
def noLoneLF (l : List Char) : Bool := noLoneLFFrom 'A' l

/-- Induction on a list in steps of one element with a two-element front. -/
theorem list2_induction {α : Type} (P : List α → Prop) (h0 : P []) (h1 : ∀ a, P [a])
    (h2 : ∀ a b rest, P (b :: rest) → P (a :: b :: rest)) : ∀ l, P l
  | [] => h0
  | [a] => h1 a
  | a :: b :: rest => h2 a b rest (list2_induction P h0 h1 h2 (b :: rest))

/-- A string without line feeds passes the scan from any previous
character. -/
theorem noLoneLFFrom_of_no_lf (l : List Char) (h : '\n' ∉ l) :
    ∀ prev, noLoneLFFrom prev l = true := by
  induction l with
  | nil => intro prev; rfl
  | cons c rest ih =>
    intro prev
    have hc : c ≠ '\n' := fun hc => h (by simp [hc])
    rw [noLoneLFFrom]
    simp only [Bool.and_eq_true, Bool.or_eq_true, bne_iff_ne]
    exact ⟨Or.inl hc, ih (fun hm => h (by simp [hm])) c⟩

/-- Passing an LF-free segment followed by a CRLF reduces the scan to the
tail after the line feed. -/
theorem noLoneLFFrom_append_crlf (l m : List Char) (h : '\n' ∉ l) :
    ∀ prev, noLoneLFFrom prev (l ++ '\r' :: '\n' :: m) = noLoneLFFrom '\n' m := by
  induction l with
  | nil =>
    intro prev
    simp [noLoneLFFrom]
  | cons c rest ih =>
    intro prev
    have hc : c ≠ '\n' := fun hc => h (by simp [hc])
    rw [List.cons_append, noLoneLFFrom]
    rw [ih (fun hm => h (by simp [hm])) c]
    simp [hc]

/-- Joining LF-free lines with CRLF yields a text with no lone line feed. -/
theorem noLoneLFFrom_join_sep (lines : List (List Char)) (h : ∀ l ∈ lines, '\n' ∉ l) :
    ∀ prev, noLoneLFFrom prev (join_sep (str "\r\n") lines) = true := by
  induction lines using list2_induction with
  | h0 => intro prev; rfl
  | h1 a => exact noLoneLFFrom_of_no_lf a (h a (by simp))
  | h2 a b rest ih =>
    intro prev
    have hsep : join_sep (str "\r\n") (a :: b :: rest)
        = a ++ '\r' :: '\n' :: join_sep (str "\r\n") (b :: rest) := by
      rw [join_sep, List.append_assoc]; rfl
    rw [hsep, noLoneLFFrom_append_crlf a _ (h a (by simp))]
    exact ih (fun l hl => h l (List.mem_cons_of_mem a hl)) '\n'

theorem noLoneLF_join_sep (lines : List (List Char)) (h : ∀ l ∈ lines, '\n' ∉ l) :
    noLoneLF (join_sep (str "\r\n") lines) = true :=
  noLoneLFFrom_join_sep lines h 'A'

theorem hexDigit_ne_lf : ∀ d, d < 16 → hexDigit d ≠ '\n' := by decide

theorem natToHexAux_no_lf : ∀ n acc, (∀ c ∈ acc, c ≠ '\n') → ∀ c ∈ natToHexAux n acc, c ≠ '\n' := by
  intro n
  induction n using Nat.strong_induction_on with
  | _ n ih =>
    intro acc hacc c hc
    rw [natToHexAux] at hc
    by_cases h0 : n = 0
    · rw [if_pos h0] at hc; exact hacc c hc
    · rw [if_neg h0] at hc
      refine ih (n / 16) (Nat.div_lt_self (Nat.pos_of_ne_zero h0) (by omega)) _ ?_ c hc
      intro x hx
      rcases List.mem_cons.mp hx with h | h
      · subst h; exact hexDigit_ne_lf _ (Nat.mod_lt n (by omega))
      · exact hacc x h

theorem natToHex_no_lf (n : Nat) : ∀ c ∈ natToHex n, c ≠ '\n' := by
  unfold natToHex
  by_cases h0 : n = 0
  · rw [if_pos h0]; intro c hc; simp at hc; subst hc; decide
  · rw [if_neg h0]; exact natToHexAux_no_lf n [] (by simp)

/-- A literal prefix without line feeds followed by a generated boundary
suffix stays free of line feeds. -/
theorem no_lf_prefix_hex (spre : List Char) (t : Nat) (hpre : '\n' ∉ spre) :
    '\n' ∉ spre ++ generate_boundary t := by
  intro h
  rcases List.mem_append.mp h with h | h
  · exact hpre h
  · exact natToHex_no_lf t '\n' h rfl

theorem b64EncodePadded_no_lf (l : List Nat) : '\n' ∉ b64EncodePadded b64CharStd l := by
  intro h
  unfold b64EncodePadded at h
  rcases List.mem_append.mp h with h | h
  · obtain ⟨n, hn⟩ := mem_b64EncodeNoPad b64CharStd l '\n' h
    exact absurd hn.symm (b64AlphabetStd_no_eq _ (b64CharStd_mem n)).2
  · split at h
    · exact absurd h (by decide)
    · split at h
      · exact absurd h (by decide)
      · exact absurd h (by decide)

theorem encode_mime_header_no_lf (s : List Char) : '\n' ∉ encode_mime_header s := by
  unfold encode_mime_header
  split
  · next hall =>
    intro hmem
    exact absurd (List.all_eq_true.mp hall _ hmem) (by decide)
  · intro hmem
    rcases List.mem_append.mp hmem with h | h
    · rcases List.mem_append.mp h with h | h
      · exact absurd h (by decide)
      · exact b64EncodePadded_no_lf _ h
    · exact absurd h (by decide)

theorem join_sep_comma_no_lf (xs : List (List Char)) (h : ∀ x ∈ xs, '\n' ∉ x) :
    '\n' ∉ join_sep (str ", ") xs := by
  induction xs using list2_induction with
  | h0 => simp [join_sep]
  | h1 a => exact h a (by simp)
  | h2 a b rest ih =>
    rw [join_sep]
    intro hm
    rcases List.mem_append.mp hm with hm | hm
    · rcases List.mem_append.mp hm with hm | hm
      · exact h a (by simp) hm
      · exact absurd hm (by decide)
    · exact ih (fun l hl => h l (List.mem_cons_of_mem a hl)) hm

theorem chunks76_subset_aux :
    ∀ n (l : List Char), l.length ≤ n → ∀ x ∈ chunks76 l, ∀ c ∈ x, c ∈ l := by
  intro n
  induction n with
  | zero =>
    intro l h
    have : l = [] := List.eq_nil_of_length_eq_zero (Nat.le_zero.mp h)
    subst this; simp [chunks76]
  | succ n ih =>
    intro l h x hx c hc
    cases l with
    | nil => simp [chunks76] at hx
    | cons c0 rest =>
      rw [chunks76] at hx
      rcases List.mem_cons.mp hx with h1 | h2
      · subst h1; exact List.take_subset 76 _ hc
      · have hdl : ((c0 :: rest).drop 76).length ≤ n := by
          simp only [List.length_drop, List.length_cons]
          simp only [List.length_cons] at h
          omega
        exact List.drop_subset 76 _ (ih _ hdl x h2 c hc)

/-- Every forced combination of list segments keeps the property. -/
theorem forall_mem_append2 {α : Type} {P : α → Prop} {A B : List α}
    (hA : ∀ l ∈ A, P l) (hB : ∀ l ∈ B, P l) : ∀ l ∈ A ++ B, P l := by
  intro l hl
  rcases List.mem_append.mp hl with h | h
  · exact hA l h
  · exact hB l h

/-- An optional string defaulted to an LF-free body is LF-free when the
optional value is. -/
theorem no_lf_getD (o : Option (List Char)) (d : List Char)
    (ho : ∀ h, o = some h → '\n' ∉ h) (hd : '\n' ∉ d) : '\n' ∉ o.getD d := by
  cases o with
  | none => exact hd
  | some h => exact ho h rfl

/-- Every header line is free of line feeds when the raw-inserted header
fields are. -/
theorem header_block_no_lf (p : EmailParams)
    (hto : ∀ a ∈ p.«to», '\n' ∉ a)
    (hcc : ∀ cc, p.cc = some cc → ∀ a ∈ cc, '\n' ∉ a)
    (hbcc : ∀ bcc, p.bcc = some bcc → ∀ a ∈ bcc, '\n' ∉ a)
    (hrep : ∀ r, p.in_reply_to = some r → '\n' ∉ r) :
    ∀ l ∈ header_block p, '\n' ∉ l := by
  unfold header_block
  refine forall_mem_append2 (forall_mem_append2 (forall_mem_append2 (forall_mem_append2
    (forall_mem_append2 ?_ ?_) ?_) ?_) ?_) ?_
  · intro l hl
    rcases List.mem_cons.mp hl with rfl | hl
    · decide
    · rcases List.mem_cons.mp hl with rfl | hl
      · intro hm
        rcases List.mem_append.mp hm with hm | hm
        · exact absurd hm (by decide)
        · exact join_sep_comma_no_lf p.«to» hto hm
      · simp at hl
  · rcases hp : p.cc with _ | cc
    · simp
    · dsimp only
      split
      · simp
      · intro l hl
        rcases List.mem_cons.mp hl with rfl | hl
        · intro hm
          rcases List.mem_append.mp hm with hm | hm
          · exact absurd hm (by decide)
          · exact join_sep_comma_no_lf cc (hcc cc hp) hm
        · simp at hl
  · rcases hp : p.bcc with _ | bcc
    · simp
    · dsimp only
      split
      · simp
      · intro l hl
        rcases List.mem_cons.mp hl with rfl | hl
        · intro hm
          rcases List.mem_append.mp hm with hm | hm
          · exact absurd hm (by decide)
          · exact join_sep_comma_no_lf bcc (hbcc bcc hp) hm
        · simp at hl
  · intro l hl
    rcases List.mem_cons.mp hl with rfl | hl
    · intro hm
      rcases List.mem_append.mp hm with hm | hm
      · exact absurd hm (by decide)
      · exact encode_mime_header_no_lf p.subject hm
    · simp at hl
  · rcases hp : p.in_reply_to with _ | r
    · simp
    · dsimp only
      intro l hl
      rcases List.mem_cons.mp hl with rfl | hl
      · intro hm
        rcases List.mem_append.mp hm with hm | hm
        · exact absurd hm (by decide)
        · exact hrep r hp hm
      · rcases List.mem_cons.mp hl with rfl | hl
        · intro hm
          rcases List.mem_append.mp hm with hm | hm
          · exact absurd hm (by decide)
          · exact hrep r hp hm
        · simp at hl
  · intro l hl
    rcases List.mem_cons.mp hl with rfl | hl
    · decide
    · simp at hl

/-- Every line of the alternative section is free of line feeds when the
boundary, body and HTML body are. -/
theorem alt_section_no_lf (b : List Char) (p : EmailParams)
    (hb : '\n' ∉ b) (hbody : '\n' ∉ p.body)
    (hhtml : ∀ h, p.html_body = some h → '\n' ∉ h) :
    ∀ l ∈ alt_section b p, '\n' ∉ l := by
  have hdash : '\n' ∉ str "--" ++ b := by
    intro hm
    rcases List.mem_append.mp hm with hm | hm
    · exact absurd hm (by decide)
    · exact hb hm
  have hclose : '\n' ∉ str "--" ++ b ++ str "--" := by
    intro hm
    rcases List.mem_append.mp hm with hm | hm
    · exact hdash hm
    · exact absurd hm (by decide)
  intro l hl
  unfold alt_section at hl
  simp only [List.mem_cons, List.not_mem_nil, or_false] at hl
  rcases hl with rfl | rfl | rfl | rfl | rfl | rfl | rfl | rfl | rfl | rfl | rfl | rfl | rfl
  · exact hdash
  · decide
  · decide
  · simp
  · exact hbody
  · simp
  · exact hdash
  · decide
  · decide
  · simp
  · exact no_lf_getD p.html_body p.body hhtml hbody
  · simp
  · exact hclose

/-- Every line of one attachment sub-part is free of line feeds when the
boundary and the declared MIME type are. -/
theorem attachment_lines_no_lf (a : AttachmentData) (mb : List Char)
    (hmb : '\n' ∉ mb) (hmime : '\n' ∉ a.mime_type) :
    ∀ l ∈ attachment_lines a mb, '\n' ∉ l := by
  intro l hl
  unfold attachment_lines at hl
  rcases List.mem_append.mp hl with hl | hl
  · rcases List.mem_append.mp hl with hl | hl
    · simp only [List.mem_cons, List.not_mem_nil, or_false] at hl
      rcases hl with rfl | rfl | rfl | rfl | rfl
      · intro hm
        rcases List.mem_append.mp hm with hm | hm
        · exact absurd hm (by decide)
        · exact hmb hm
      · intro hm
        rcases List.mem_append.mp hm with hm | hm
        · rcases List.mem_append.mp hm with hm | hm
          · rcases List.mem_append.mp hm with hm | hm
            · rcases List.mem_append.mp hm with hm | hm
              · exact absurd hm (by decide)
              · exact hmime hm
            · exact absurd hm (by decide)
          · exact encode_mime_header_no_lf a.filename hm
        · exact absurd hm (by decide)
      · decide
      · intro hm
        rcases List.mem_append.mp hm with hm | hm
        · rcases List.mem_append.mp hm with hm | hm
          · exact absurd hm (by decide)
          · exact encode_mime_header_no_lf a.filename hm
        · exact absurd hm (by decide)
      · simp
    · intro hm
      exact b64EncodePadded_no_lf a.data
        (chunks76_subset_aux (b64EncodePadded b64CharStd a.data).length _ le_rfl l hl '\n' hm)
  · simp only [List.mem_singleton] at hl
    subst hl; simp

/-- Every line of the whole attachment train is free of line feeds. -/
theorem attachments_lines_all_no_lf (atts : List AttachmentData) (mb : List Char)
    (hmb : '\n' ∉ mb) (hmime : ∀ a ∈ atts, '\n' ∉ a.mime_type) :
    ∀ l ∈ attachments_lines_all atts mb, '\n' ∉ l := by
  induction atts with
  | nil => simp [attachments_lines_all]
  | cons a rest ih =>
    rw [attachments_lines_all]
    refine forall_mem_append2 ?_ ?_
    · exact attachment_lines_no_lf a mb hmb (hmime a (by simp))
    · exact ih fun x hx => hmime x (List.mem_cons_of_mem a hx)

/-- Every body line is free of line feeds under the same field conditions. -/
theorem body_block_no_lf (t1 t2 : Nat) (p : EmailParams)
    (hbody : '\n' ∉ p.body)
    (hhtml : ∀ h, p.html_body = some h → '\n' ∉ h)
    (hatts : ∀ atts, p.attachments = some atts → ∀ a ∈ atts, '\n' ∉ a.mime_type) :
    ∀ l ∈ body_block t1 t2 p, '\n' ∉ l := by
  have hmixed : '\n' ∉ mixed_boundary t1 := no_lf_prefix_hex _ t1 (by decide)
  have halt : '\n' ∉ alt_boundary t2 := no_lf_prefix_hex _ t2 (by decide)
  have hnextb : '\n' ∉ next_boundary t1 := no_lf_prefix_hex _ t1 (by decide)
  have hsingle : ∀ ct content, (ct = str "Content-Type: text/html; charset=UTF-8"
        ∨ ct = str "Content-Type: text/plain; charset=UTF-8") → '\n' ∉ content →
      ∀ l ∈ single_part_lines ct content, '\n' ∉ l := by
    intro ct content hct hcont l hl
    unfold single_part_lines at hl
    simp only [List.mem_cons, List.not_mem_nil, or_false] at hl
    rcases hl with rfl | rfl | rfl | rfl
    · rcases hct with rfl | rfl <;> decide
    · decide
    · simp
    · exact hcont
  have hdashm : '\n' ∉ str "--" ++ mixed_boundary t1 := by
    intro hm
    rcases List.mem_append.mp hm with hm | hm
    · exact absurd hm (by decide)
    · exact hmixed hm
  unfold body_block
  split
  · intro l hl
    rcases List.mem_cons.mp hl with rfl | hl
    · intro hm
      rcases List.mem_append.mp hm with hm | hm
      · rcases List.mem_append.mp hm with hm | hm
        · exact absurd hm (by decide)
        · exact hmixed hm
      · exact absurd hm (by decide)
    · rcases List.mem_cons.mp hl with rfl | hl
      · simp
      · rcases List.mem_cons.mp hl with rfl | hl
        · exact hdashm
        · refine forall_mem_append2 (P := fun x => '\n' ∉ x)
            (forall_mem_append2 (forall_mem_append2 ?_ ?_) ?_) ?_ l hl
          · split
            · intro x hx
              rcases List.mem_cons.mp hx with rfl | hx
              · intro hm
                rcases List.mem_append.mp hm with hm | hm
                · rcases List.mem_append.mp hm with hm | hm
                  · exact absurd hm (by decide)
                  · exact halt hm
                · exact absurd hm (by decide)
              · rcases List.mem_cons.mp hx with rfl | hx
                · simp
                · exact alt_section_no_lf (alt_boundary t2) p halt hbody hhtml x hx
            · split
              · exact hsingle _ _ (Or.inl rfl) (no_lf_getD p.html_body p.body hhtml hbody)
              · exact hsingle _ _ (Or.inr rfl) hbody
          · simp
          · rcases hp : p.attachments with _ | atts
            · simp
            · dsimp only
              exact attachments_lines_all_no_lf atts (mixed_boundary t1) hmixed (hatts atts hp)
          · intro x hx
            simp only [List.mem_singleton] at hx
            subst hx
            intro hm
            rcases List.mem_append.mp hm with hm | hm
            · exact hdashm hm
            · exact absurd hm (by decide)
  · split
    · intro l hl
      rcases List.mem_cons.mp hl with rfl | hl
      · intro hm
        rcases List.mem_append.mp hm with hm | hm
        · rcases List.mem_append.mp hm with hm | hm
          · exact absurd hm (by decide)
          · exact hnextb hm
        · exact absurd hm (by decide)
      · rcases List.mem_cons.mp hl with rfl | hl
        · simp
        · exact alt_section_no_lf (next_boundary t1) p hnextb hbody hhtml l hl
    · split
      · exact hsingle _ _ (Or.inl rfl) (no_lf_getD p.html_body p.body hhtml hbody)
      · exact hsingle _ _ (Or.inr rfl) hbody

/-- Every line pushed by the composer is free of line feeds under the field
conditions. -/
theorem message_lines_no_lf (t1 t2 : Nat) (p : EmailParams)
    (hto : ∀ a ∈ p.«to», '\n' ∉ a)
    (hcc : ∀ cc, p.cc = some cc → ∀ a ∈ cc, '\n' ∉ a)
    (hbcc : ∀ bcc, p.bcc = some bcc → ∀ a ∈ bcc, '\n' ∉ a)
    (hrep : ∀ r, p.in_reply_to = some r → '\n' ∉ r)
    (hbody : '\n' ∉ p.body)
    (hhtml : ∀ h, p.html_body = some h → '\n' ∉ h)
    (hatts : ∀ atts, p.attachments = some atts → ∀ a ∈ atts, '\n' ∉ a.mime_type) :
    ∀ l ∈ message_lines t1 t2 p, '\n' ∉ l := by
  unfold message_lines
  exact forall_mem_append2 (header_block_no_lf p hto hcc hbcc hrep)
    (body_block_no_lf t1 t2 p hbody hhtml hatts)

/-- Parameters whose body contains a bare line feed. -/
def emailParamsC1 : EmailParams :=
  { «to» := [str "a@b.co"], subject := str "S", body := str "a\nb", html_body := none,
    mime_type := none, cc := none, bcc := none, thread_id := none, in_reply_to := none,
    attachments := none }

/-- Counterexample to claim C1 as stated: with body `"a\nb"` composition
succeeds and the output contains a line feed not preceded by a carriage
return — the body is inserted verbatim between CRLF-joined lines. -/
theorem claim_C1_counterexample :
    Except.map noLoneLF (create_email_message 0 0 emailParamsC1) = Except.ok false := rfl

/-- Claim C1, amended: when the raw-inserted fields — the `to`/`cc`/`bcc`
address lists, the reply reference, the plain body, the HTML body and the
attachment MIME types — contain no line feed, every line separator of a
successfully composed message is CRLF: a line feed alone never occurs.  The
subject and the attachment filenames may still be arbitrary, since they pass
through the header encoder. -/
theorem claim_C1 (t1 t2 : Nat) (p : EmailParams) (m : List Char)
    (hto : ∀ a ∈ p.«to», '\n' ∉ a)
    (hcc : ∀ cc, p.cc = some cc → ∀ a ∈ cc, '\n' ∉ a)
    (hbcc : ∀ bcc, p.bcc = some bcc → ∀ a ∈ bcc, '\n' ∉ a)
    (hrep : ∀ r, p.in_reply_to = some r → '\n' ∉ r)
    (hbody : '\n' ∉ p.body)
    (hhtml : ∀ h, p.html_body = some h → '\n' ∉ h)
    (hatts : ∀ atts, p.attachments = some atts → ∀ a ∈ atts, '\n' ∉ a.mime_type)
    (hok : create_email_message t1 t2 p = Except.ok m) :
    noLoneLF m = true := by
  unfold create_email_message at hok
  rcases hfi : firstInvalid p.«to» with _ | bad
  · rw [hfi] at hok
    simp only [Except.ok.injEq] at hok
    subst hok
    exact noLoneLF_join_sep (message_lines t1 t2 p)
      (message_lines_no_lf t1 t2 p hto hcc hbcc hrep hbody hhtml hatts)
  · rw [hfi] at hok
    exact absurd hok (by simp)

/-- Parameters with a line feed in the subject only: the header encoder
protects the output. -/
def emailParamsC1w : EmailParams :=
  { «to» := [str "a@b.co"], subject := str "S\nT", body := str "B", html_body := none,
    mime_type := none, cc := none, bcc := none, thread_id := none, in_reply_to := none,
    attachments := none }

theorem claim_C1_witness :
    noLoneLF (join_sep (str "\r\n") (message_lines 0 0 emailParamsC1w)) = true :=
  claim_C1 0 0 emailParamsC1w (join_sep (str "\r\n") (message_lines 0 0 emailParamsC1w))
    (by decide) (fun cc h => Option.noConfusion h) (fun bcc h => Option.noConfusion h)
    (fun r h => Option.noConfusion h) (by decide) (fun h hh => Option.noConfusion hh)
    (fun atts h => Option.noConfusion h) rfl
